import Mathlib

/-!
Verification of the key-derivation, profile-storage, namespace and core-registry
layer of the corestore/key-manager repository, as a shallow embedding in Lean.

Byte buffers are modelled as `List Nat`.  The cryptographic hash
(`blake2b.batch` / `crypto_generichash_batch`) and the signature scheme
(`crypto_sign_seed_keypair`) are external collaborators that the design treats
as honest, collision-free primitives; they are modelled here as injective
encodings of their inputs, which realises exactly that assumption (a keyed
hash of the *concatenation* of the batch inputs, so any collision structure of
concatenation is preserved faithfully).
-/

/-- Byte strings (buffer contents) are lists of naturals. -/
abbrev Bytes := List Nat

/-- ASCII encoding of a JS string, as in `Buffer.from(s, 'ascii')`:
each UTF-16 code unit contributes its low byte. -/
def strBytes (s : String) : Bytes :=
  s.data.map (fun c => c.toNat % 256)

/-- Model of `blake2b.batch(out, inputs, key)` (and of
`sodium.crypto_generichash_batch(out, inputs, key)`): a keyed hash over the
concatenation of the input buffers.  Modelled as an injective encoding of the
pair (key, concatenation of inputs), reflecting the spec's honest
collision-free-hash assumption. -/
def hashBatch (inputs : List Bytes) (key : Bytes) : Bytes :=
  key.length :: (key ++ inputs.flatten)

/-- Model of `sodium.crypto_sign_seed_keypair`: public and secret key are
(injective) functions of the 32-byte seed. -/
structure KeyPair where
  publicKey : Bytes
  secretKey : Bytes
deriving DecidableEq

/-- The keypair produced from a seed by the signature collaborator. -/
def signSeedKeypair (seed : Bytes) : KeyPair :=
  ⟨0 :: seed, 1 :: seed⟩

/-- The two synchronous validation failures of `deriveSeed`
(both are `InvalidArgument` in the spec's taxonomy). -/
inductive KeyError where
  | shortToken : KeyError
  | badName : KeyError
deriving DecidableEq

/-- `DEFAULT_TOKEN = Buffer.alloc(0)` from `src/lib/keys.js`. -/
def DEFAULT_TOKEN : Bytes := []

/-- `NAMESPACE = Buffer.from('@hyperspace/key-manager')` from `src/lib/keys.js`. -/
def NAMESPACE : Bytes := strBytes "@hyperspace/key-manager"

/-- The guard `token && token.length < 32` of `deriveSeed`
(a JS Buffer is always truthy, so an absent token skips the check). -/
def tokenShort : Option Bytes → Bool
  | some t => t.length < 32
  | none => false

/-- `Buffer.from(Buffer.byteLength(name, 'ascii') + '\n' + name, 'ascii')`:
the length-prefixed name hashed by `deriveSeed`. -/
def lengthPrefixedName (name : String) : Bytes :=
  strBytes (toString name.length ++ "\n" ++ name)

/-- `deriveSeed(profile, token, name)` from `src/lib/keys.js` lines 86-98:
validates the token (if supplied, length at least 32) and the name
(non-empty string), then returns the keyed hash of
`[NAMESPACE, token-or-empty, length-prefixed name]` keyed by the profile.
The `output` parameter is the freshly allocated 32-byte buffer. -/
def deriveSeed (profile : Bytes) (token : Option Bytes) (name : String) :
    Except KeyError Bytes :=
  if tokenShort token then .error .shortToken
  else if name = "" then .error .badName
  else .ok (hashBatch [NAMESPACE, token.getD DEFAULT_TOKEN, lengthPrefixedName name] profile)

/-- `KeyManager.createSecret(name, token)`: `deriveSeed(this.profile, token, name)`. -/
def createSecret (profile : Bytes) (name : String) (token : Option Bytes) :
    Except KeyError Bytes :=
  deriveSeed profile token name

/-- `KeyManager.createHypercoreKeyPair(name, token)`: seeds the signature
scheme with `createSecret(name, token)`. -/
def createHypercoreKeyPair (profile : Bytes) (name : String) (token : Option Bytes) :
    Except KeyError KeyPair :=
  (createSecret profile name token).map signSeedKeypair

/-- `KeyManager.createNetworkIdentity(name, token)`: seeds the signature
scheme with `createSecret(name, token)`. -/
def createNetworkIdentity (profile : Bytes) (name : String) (token : Option Bytes) :
    Except KeyError KeyPair :=
  (createSecret profile name token).map signSeedKeypair

/-- `Except.isOk`, spelt out. -/
def exceptOk : Except KeyError α → Bool
  | .ok _ => true
  | .error _ => false

/-- The standalone derivation `createKeyPair(prefix, namespace, name, pk)`
from the test file (src/unnamed/part_000 lines 303-313), which the corestore's
own `createKeyPair` is required to reproduce exactly:
`crypto_generichash_batch(seed, [prefix, namespace, name], pk)` followed by
`crypto_sign_seed_keypair`. -/
def createKeyPairStandalone (appId nspace nameB primaryKey : Bytes) : KeyPair :=
  signSeedKeypair (hashBatch [appId, nspace, nameB] primaryKey)

/-- `profileStorage.write(0, key, cb)` on a slot: overwrites the slot's
contents from offset 0 with `key` (a missing slot is created). -/
def writeAt0 (old : Option Bytes) (key : Bytes) : Bytes :=
  key ++ (old.getD []).drop key.length

/-- `KeyManager.fromStorage(storage, opts)` from `src/lib/keys.js` lines 62-83,
restricted to the profile-loading promise.  The storage slot is `none` when
`stat` fails with `ENOENT`, otherwise `some contents`.  `fresh` is the value
`randomBytes(32)` would produce on this call.  Returns the resolved profile
together with the slot contents afterwards. -/
def fromStorage (slot : Option Bytes) (fresh : Bytes) (overwrite : Bool) :
    Bytes × Bytes :=
  match slot with
  | none => (fresh, writeAt0 none fresh)
  | some contents =>
    if contents.length < 32 || overwrite then (fresh, writeAt0 (some contents) fresh)
    else (contents.take 32, contents)

/-- A namespace descriptor: `{applicationId, discriminator}` (spec section 3). -/
structure NamespaceDescriptor where
  applicationId : Bytes
  discriminator : Bytes
deriving DecidableEq

/-- Modelled from the spec: the corestore's namespace-derivation code is not
under src/ (only its tests are).  Spec section 3: deriving a child namespace by
name produces `discriminator' = Hash(parentDiscriminator, name)`.  The hash is
the same collaborator as in key derivation, unkeyed. -/
def childDiscriminator (parent nm : Bytes) : Bytes :=
  hashBatch [parent, nm] []

/-- Modelled from the spec: `child(descriptor, name)` keeps the
`applicationId` and rehashes the discriminator (spec sections 3 and 4.3). -/
def child (d : NamespaceDescriptor) (nm : Bytes) : NamespaceDescriptor :=
  ⟨d.applicationId, childDiscriminator d.discriminator nm⟩

/-- A cache entry of the core registry: resolved public key and the number of
open handles referencing the shared log instance. -/
abbrev RegEntry := Bytes × Nat

/-- Modelled from the spec: the CoreRegistry code is not under src/ (only its
tests are).  Spec section 4.4: the cache maps a resolved public key to a live
log instance with a refcount; `cores` exposes the entry collection. -/
structure Registry where
  entries : List RegEntry
deriving DecidableEq

/-- The cache keys (one per entry, in cache order). -/
def Registry.keys (r : Registry) : List Bytes :=
  r.entries.map Prod.fst

/-- Refcount increment on the entry for `pk`, identity elsewhere. -/
def bumpEntry (pk : Bytes) (e : RegEntry) : RegEntry :=
  if e.1 = pk then (e.1, e.2 + 1) else e

/-- Refcount decrement on the entry for `pk`, identity elsewhere. -/
def dropEntry (pk : Bytes) (e : RegEntry) : RegEntry :=
  if e.1 = pk then (e.1, e.2 - 1) else e

/-- Modelled from the spec (section 4.4): `resolve(publicKey, opener)` — if the
key is cached, increment its refcount; otherwise open one new instance and
insert a cache entry with refcount 1. -/
def Registry.resolve (r : Registry) (pk : Bytes) : Registry :=
  if pk ∈ r.keys then ⟨r.entries.map (bumpEntry pk)⟩
  else ⟨r.entries ++ [(pk, 1)]⟩

/-- Modelled from the spec (section 4.4): `release(handle)` — decrement the
refcount of the handle's key; an entry reaching refcount zero is closed and
removed from the cache. -/
def Registry.release (r : Registry) (pk : Bytes) : Registry :=
  ⟨(r.entries.map (dropEntry pk)).filter (fun e => 0 < e.2)⟩

/-- One registry operation: a `get`/`resolve` of a public key, or the release
of a handle on a public key. -/
inductive RegOp where
  | get : Bytes → RegOp
  | release : Bytes → RegOp
deriving DecidableEq

/-- Apply one operation to the registry. -/
def Registry.step (r : Registry) : RegOp → Registry
  | .get pk => r.resolve pk
  | .release pk => r.release pk

/-- Run a sequence of operations on one manager's initially empty registry. -/
def Registry.run (ops : List RegOp) : Registry :=
  ops.foldl Registry.step ⟨[]⟩

/-- The registry's well-formedness invariant: at most one entry per public key
(the key list has no duplicates) and every live entry has at least one handle. -/
def Registry.Wf (r : Registry) : Prop :=
  r.keys.Nodup ∧ ∀ e ∈ r.entries, 0 < e.2

/-! Helper lemmas. -/

theorem hashBatch_inj {i i' : List Bytes} {k k' : Bytes}
    (h : hashBatch i k = hashBatch i' k') : k = k' ∧ i.flatten = i'.flatten := by
  unfold hashBatch at h
  have hl := (List.cons.injEq _ _ _ _).mp h
  exact List.append_inj hl.2 hl.1

theorem middle_ne {b b' : Bytes} (a c : Bytes) (h : b ≠ b') :
    a ++ (b ++ c) ≠ a ++ (b' ++ c) :=
  fun heq => h (List.append_cancel_right (List.append_cancel_left heq))

theorem deriveSeed_valid (profile : Bytes) (token : Option Bytes) (name : String)
    (ht : tokenShort token = false) (hn : name ≠ "") :
    deriveSeed profile token name =
      .ok (hashBatch [NAMESPACE, token.getD DEFAULT_TOKEN, lengthPrefixedName name] profile) := by
  simp [deriveSeed, ht, hn]

theorem deriveSeed_shortToken (profile : Bytes) (t : Bytes) (name : String)
    (h : t.length < 32) :
    deriveSeed profile (some t) name = .error .shortToken := by
  simp [deriveSeed, tokenShort, h]

theorem tokenShort_of_le {t : Bytes} (h : 32 ≤ t.length) :
    tokenShort (some t) = false := by
  simp [tokenShort]
  omega

theorem fromStorage_keep (g c : Bytes) (hge : ¬ c.length < 32) :
    fromStorage (some c) g false = (c.take 32, c) := by
  simp [fromStorage, hge]

theorem bumpEntry_fst (pk : Bytes) (e : RegEntry) : (bumpEntry pk e).1 = e.1 := by
  unfold bumpEntry
  split <;> rfl

theorem dropEntry_fst (pk : Bytes) (e : RegEntry) : (dropEntry pk e).1 = e.1 := by
  unfold dropEntry
  split <;> rfl

theorem keys_map_bump (l : List RegEntry) (pk : Bytes) :
    (l.map (bumpEntry pk)).map Prod.fst = l.map Prod.fst := by
  rw [List.map_map]
  exact List.map_congr_left (fun e _ => bumpEntry_fst pk e)

theorem keys_map_drop (l : List RegEntry) (pk : Bytes) :
    (l.map (dropEntry pk)).map Prod.fst = l.map Prod.fst := by
  rw [List.map_map]
  exact List.map_congr_left (fun e _ => dropEntry_fst pk e)

theorem wf_resolve (r : Registry) (pk : Bytes) (h : r.Wf) : (r.resolve pk).Wf := by
  unfold Registry.resolve
  split
  · refine ⟨?_, ?_⟩
    · show ((r.entries.map (bumpEntry pk)).map Prod.fst).Nodup
      rw [keys_map_bump]
      exact h.1
    · intro e he
      obtain ⟨e₀, he₀, rfl⟩ := List.mem_map.mp he
      unfold bumpEntry
      split
      · exact Nat.succ_pos _
      · exact h.2 e₀ he₀
  · next hnm =>
    refine ⟨?_, ?_⟩
    · show ((r.entries ++ [(pk, 1)]).map Prod.fst).Nodup
      rw [List.map_append]
      refine List.Nodup.append h.1 (List.nodup_singleton pk) ?_
      intro a ha hb
      simp only [List.map_cons, List.map_nil, List.mem_singleton] at hb
      subst hb
      exact hnm ha
    · intro e he
      rcases List.mem_append.mp he with h₁ | h₂
      · exact h.2 e h₁
      · simp only [List.mem_singleton] at h₂
        subst h₂
        exact Nat.one_pos

theorem wf_release (r : Registry) (pk : Bytes) (h : r.Wf) : (r.release pk).Wf := by
  refine ⟨?_, ?_⟩
  · show (((r.entries.map (dropEntry pk)).filter (fun e => 0 < e.2)).map Prod.fst).Nodup
    have hsub : (((r.entries.map (dropEntry pk)).filter (fun e => 0 < e.2)).map Prod.fst).Sublist
        ((r.entries.map (dropEntry pk)).map Prod.fst) :=
      (List.filter_sublist _).map Prod.fst
    rw [keys_map_drop] at hsub
    exact h.1.sublist hsub
  · intro e he
    have := List.of_mem_filter he
    simpa using this

theorem wf_step (r : Registry) (op : RegOp) (h : r.Wf) : (r.step op).Wf := by
  cases op with
  | get pk => exact wf_resolve r pk h
  | release pk => exact wf_release r pk h

theorem wf_foldl (ops : List RegOp) (r : Registry) (h : r.Wf) :
    (ops.foldl Registry.step r).Wf := by
  induction ops generalizing r with
  | nil => exact h
  | cons op ops ih => exact ih _ (wf_step r op h)

theorem wf_run (ops : List RegOp) : (Registry.run ops).Wf :=
  wf_foldl ops ⟨[]⟩ ⟨List.nodup_nil, by simp⟩

/-! Claim theorems. -/

/-- C1: key derivation is deterministic — two invocations of `deriveSeed` or
`createHypercoreKeyPair` with identical (profile, token, name) inputs yield
byte-identical seeds and byte-identical keypairs, with no dependence on any
other state (both are pure functions of their inputs). -/
theorem derivation_deterministic (p₁ p₂ : Bytes) (t₁ t₂ : Option Bytes)
    (n₁ n₂ : String) (hp : p₁ = p₂) (ht : t₁ = t₂) (hn : n₁ = n₂) :
    deriveSeed p₁ t₁ n₁ = deriveSeed p₂ t₂ n₂ ∧
    createHypercoreKeyPair p₁ n₁ t₁ = createHypercoreKeyPair p₂ n₂ t₂ := by
  subst hp
  subst ht
  subst hn
  exact ⟨rfl, rfl⟩

/-- Witness for C1 at a concrete input. -/
theorem derivation_deterministic_w :
    deriveSeed [5] (some (List.replicate 32 0)) "doc" =
      deriveSeed [5] (some (List.replicate 32 0)) "doc" ∧
    createHypercoreKeyPair [5] "doc" (some (List.replicate 32 0)) =
      createHypercoreKeyPair [5] "doc" (some (List.replicate 32 0)) :=
  derivation_deterministic [5] [5] (some (List.replicate 32 0))
    (some (List.replicate 32 0)) "doc" "doc" rfl rfl rfl

/-- C4: an empty name always makes `deriveSeed` fail; with a valid token the
failure is precisely the name error (`InvalidArgument`), it propagates to
`createHypercoreKeyPair` (no seed is hashed: the error branch returns before
`hashBatch` is reached), and every non-empty name passes the name check. -/
theorem empty_name_invalid (profile : Bytes) (token : Option Bytes) :
    exceptOk (deriveSeed profile token "") = false ∧
    (tokenShort token = false →
      deriveSeed profile token "" = .error .badName ∧
      createHypercoreKeyPair profile "" token = .error .badName ∧
      ∀ name : String, name ≠ "" → exceptOk (deriveSeed profile token name) = true) := by
  constructor
  · by_cases ht : tokenShort token = true
    · simp [deriveSeed, exceptOk, ht]
    · simp [deriveSeed, exceptOk, ht]
  · intro ht
    have hd : deriveSeed profile token "" = .error .badName := by
      simp [deriveSeed, ht]
    refine ⟨hd, ?_, ?_⟩
    · simp [createHypercoreKeyPair, createSecret, hd, Except.map]
    · intro name hn
      rw [deriveSeed_valid profile token name ht hn]
      rfl

/-- Witness for C4 at a concrete input. -/
theorem empty_name_invalid_w :
    exceptOk (deriveSeed [1] none "") = false ∧
    deriveSeed [1] none "" = Except.error KeyError.badName ∧
    createHypercoreKeyPair [1] "" none = Except.error KeyError.badName ∧
    exceptOk (deriveSeed [1] none "main") = true := by
  have h := empty_name_invalid [1] none
  have h2 := h.2 (by decide)
  exact ⟨h.1, h2.1, h2.2.1, h2.2.2 "main" (by decide)⟩

/-- C5: a supplied token shorter than 32 bytes makes `deriveSeed` (and hence
`createHypercoreKeyPair`) fail with the token error before any seed or keypair
is produced; a token of length at least 32, or an absent token, never triggers
that error. -/
theorem short_token_invalid (profile : Bytes) (name : String) :
    (∀ t : Bytes, t.length < 32 →
      deriveSeed profile (some t) name = .error .shortToken ∧
      createHypercoreKeyPair profile name (some t) = .error .shortToken) ∧
    (∀ t : Bytes, 32 ≤ t.length →
      deriveSeed profile (some t) name ≠ .error .shortToken) ∧
    deriveSeed profile none name ≠ .error .shortToken := by
  refine ⟨?_, ?_, ?_⟩
  · intro t hlt
    have hd := deriveSeed_shortToken profile t name hlt
    exact ⟨hd, by simp [createHypercoreKeyPair, createSecret, hd, Except.map]⟩
  · intro t hle
    have ht := tokenShort_of_le hle
    by_cases hn : name = ""
    · subst hn
      simp [deriveSeed, ht]
    · rw [deriveSeed_valid profile (some t) name ht hn]
      simp
  · by_cases hn : name = ""
    · subst hn
      simp [deriveSeed, tokenShort]
    · rw [deriveSeed_valid profile none name rfl hn]
      simp

/-- Witness for C5 at a concrete input. -/
theorem short_token_invalid_w :
    deriveSeed [2] (some [0]) "x" = Except.error KeyError.shortToken ∧
    createHypercoreKeyPair [2] "x" (some [0]) = Except.error KeyError.shortToken ∧
    deriveSeed [2] (some (List.replicate 32 9)) "x" ≠ Except.error KeyError.shortToken ∧
    deriveSeed [2] none "x" ≠ Except.error KeyError.shortToken := by
  have h := short_token_invalid [2] "x"
  have h1 := h.1 [0] (by decide)
  exact ⟨h1.1, h1.2, h.2.1 (List.replicate 32 9) (by decide), h.2.2⟩

/-- C10: `createHypercoreKeyPair` and `createNetworkIdentity` on the same
KeyManager (same profile) and the same accepted (name, token) produce the same
public key, since both seed the signature scheme with the identical
`createSecret(name, token)` output (and they fail identically otherwise). -/
theorem hypercore_network_same_publicKey (profile : Bytes) (name : String)
    (token : Option Bytes) :
    (createHypercoreKeyPair profile name token).map (fun k => k.publicKey) =
      (createNetworkIdentity profile name token).map (fun k => k.publicKey) :=
  rfl

/-- C6: with the same name and two distinct valid tokens (each at least 32
bytes), `createHypercoreKeyPair` yields different public keys — the hashed
batch inputs differ, so under the collision-free hash the seeds differ. -/
theorem distinct_tokens_distinct_keys (profile : Bytes) (name : String)
    (t₁ t₂ : Bytes) (hn : name ≠ "") (h₁ : 32 ≤ t₁.length) (h₂ : 32 ≤ t₂.length)
    (hne : t₁ ≠ t₂) :
    (createHypercoreKeyPair profile name (some t₁)).map (fun k => k.publicKey) ≠
      (createHypercoreKeyPair profile name (some t₂)).map (fun k => k.publicKey) := by
  have hd₁ := deriveSeed_valid profile (some t₁) name (tokenShort_of_le h₁) hn
  have hd₂ := deriveSeed_valid profile (some t₂) name (tokenShort_of_le h₂) hn
  intro heq
  apply hne
  have hh : hashBatch [NAMESPACE, t₁, lengthPrefixedName name] profile =
      hashBatch [NAMESPACE, t₂, lengthPrefixedName name] profile := by
    simpa [createHypercoreKeyPair, createSecret, hd₁, hd₂, Except.map,
      signSeedKeypair] using heq
  have hj := (hashBatch_inj hh).2
  simp only [List.flatten_cons, List.flatten_nil, List.append_nil] at hj
  exact List.append_cancel_right (List.append_cancel_left hj)

/-- Witness for C6 at a concrete input. -/
theorem distinct_tokens_distinct_keys_w :
    (createHypercoreKeyPair [3] "main" (some (List.replicate 32 0))).map
        (fun k => k.publicKey) ≠
      (createHypercoreKeyPair [3] "main" (some (List.replicate 32 1))).map
        (fun k => k.publicKey) :=
  distinct_tokens_distinct_keys [3] "main" (List.replicate 32 0)
    (List.replicate 32 1) (by decide) (by decide) (by decide) (by decide)

/-- C2: in the corestore derivation (the standalone `createKeyPair` of the
test suite, which the store must reproduce exactly), holding primary key and
name fixed, changing the application id alone, or the namespace discriminator
alone, always changes the derived public key: both are hashed into the seed
alongside the profile. -/
theorem application_discriminator_mixed
    (primaryKey nameB app app₁ app₂ nsp ns₁ ns₂ : Bytes)
    (happ : app₁ ≠ app₂) (hns : ns₁ ≠ ns₂) :
    (createKeyPairStandalone app₁ nsp nameB primaryKey).publicKey ≠
      (createKeyPairStandalone app₂ nsp nameB primaryKey).publicKey ∧
    (createKeyPairStandalone app ns₁ nameB primaryKey).publicKey ≠
      (createKeyPairStandalone app ns₂ nameB primaryKey).publicKey := by
  constructor
  · intro heq
    apply happ
    have hh : hashBatch [app₁, nsp, nameB] primaryKey =
        hashBatch [app₂, nsp, nameB] primaryKey := by
      simpa [createKeyPairStandalone, signSeedKeypair] using heq
    have hj := (hashBatch_inj hh).2
    simp only [List.flatten_cons, List.flatten_nil, List.append_nil] at hj
    exact List.append_cancel_right hj
  · intro heq
    apply hns
    have hh : hashBatch [app, ns₁, nameB] primaryKey =
        hashBatch [app, ns₂, nameB] primaryKey := by
      simpa [createKeyPairStandalone, signSeedKeypair] using heq
    have hj := (hashBatch_inj hh).2
    simp only [List.flatten_cons, List.flatten_nil, List.append_nil] at hj
    exact List.append_cancel_right (List.append_cancel_left hj)

/-- Witness for C2 at a concrete input. -/
theorem application_discriminator_mixed_w :
    (createKeyPairStandalone [3] [5] [2] [1]).publicKey ≠
      (createKeyPairStandalone [4] [5] [2] [1]).publicKey ∧
    (createKeyPairStandalone [6] [7] [2] [1]).publicKey ≠
      (createKeyPairStandalone [6] [8] [2] [1]).publicKey :=
  application_discriminator_mixed [1] [2] [6] [3] [4] [5] [7] [8]
    (by decide) (by decide)

/-- C7: namespace derivation is a pure value function — `child(parent, name)`
called twice yields byte-identical descriptors, and two distinct child names
yield descriptors whose discriminators produce different derived public keys
for the same leaf name under the same application id and primary key. -/
theorem namespace_child_value (d : NamespaceDescriptor) (nm n₁ n₂ leaf pk : Bytes)
    (hne : n₁ ≠ n₂) :
    child d nm = child d nm ∧
    (createKeyPairStandalone d.applicationId (child d n₁).discriminator leaf pk).publicKey ≠
      (createKeyPairStandalone d.applicationId (child d n₂).discriminator leaf pk).publicKey := by
  refine ⟨rfl, ?_⟩
  have hdisc : childDiscriminator d.discriminator n₁ ≠
      childDiscriminator d.discriminator n₂ := by
    intro h
    apply hne
    unfold childDiscriminator at h
    have hj := (hashBatch_inj h).2
    simp only [List.flatten_cons, List.flatten_nil, List.append_nil] at hj
    exact List.append_cancel_left hj
  intro heq
  apply hdisc
  have hh : hashBatch [d.applicationId, childDiscriminator d.discriminator n₁, leaf] pk =
      hashBatch [d.applicationId, childDiscriminator d.discriminator n₂, leaf] pk := by
    simpa [createKeyPairStandalone, signSeedKeypair, child] using heq
  have hj := (hashBatch_inj hh).2
  simp only [List.flatten_cons, List.flatten_nil, List.append_nil] at hj
  exact List.append_cancel_right (List.append_cancel_left hj)

/-- Witness for C7 at a concrete input. -/
theorem namespace_child_value_w :
    child ⟨[1], [2]⟩ [3] = child ⟨[1], [2]⟩ [3] ∧
    (createKeyPairStandalone (NamespaceDescriptor.mk [1] [2]).applicationId
        (child ⟨[1], [2]⟩ [4]).discriminator [6] [7]).publicKey ≠
      (createKeyPairStandalone (NamespaceDescriptor.mk [1] [2]).applicationId
        (child ⟨[1], [2]⟩ [5]).discriminator [6] [7]).publicKey :=
  namespace_child_value ⟨[1], [2]⟩ [3] [4] [5] [6] [7] (by decide)

/-- C3: profile open is read-or-generate — with `overwrite` unset, a missing
slot or one holding fewer than 32 bytes makes `fromStorage` return the fresh
random 32 bytes and persist them; a slot holding at least 32 bytes is returned
(first 32 bytes) unchanged; and a second open of the resulting slot yields the
same profile. -/
theorem fromStorage_read_or_generate (fresh fresh' : Bytes)
    (hf : fresh.length = 32) :
    (∀ slot : Option Bytes,
      (slot = none ∨ ∃ c, slot = some c ∧ c.length < 32) →
      fromStorage slot fresh false = (fresh, fresh)) ∧
    (∀ c : Bytes, 32 ≤ c.length →
      fromStorage (some c) fresh false = (c.take 32, c)) ∧
    (∀ slot : Option Bytes,
      (fromStorage (some (fromStorage slot fresh false).2) fresh' false).1 =
        (fromStorage slot fresh false).1) := by
  have hft : fresh.take 32 = fresh := List.take_of_length_le (Nat.le_of_eq hf)
  have hnone : fromStorage none fresh false = (fresh, fresh) := by
    simp [fromStorage, writeAt0]
  have hshort : ∀ c : Bytes, c.length < 32 →
      fromStorage (some c) fresh false = (fresh, fresh) := by
    intro c hlt
    have hd : c.drop fresh.length = [] := by
      rw [hf]
      exact List.drop_eq_nil_of_le (Nat.le_of_lt hlt)
    simp [fromStorage, writeAt0, hlt, hd]
  have hlong : ∀ (g c : Bytes), ¬ c.length < 32 →
      fromStorage (some c) g false = (c.take 32, c) := by
    intro g c hge
    simp [fromStorage, hge]
  refine ⟨?_, ?_, ?_⟩
  · intro slot h
    rcases h with rfl | ⟨c, rfl, hlt⟩
    · exact hnone
    · exact hshort c hlt
  · intro c hc
    exact hlong fresh c (Nat.not_lt.mpr hc)
  · intro slot
    cases slot with
    | none =>
      rw [hnone]
      show (fromStorage (some fresh) fresh' false).1 = fresh
      rw [hlong fresh' fresh (by omega)]
      exact hft
    | some c =>
      by_cases hlt : c.length < 32
      · rw [hshort c hlt]
        show (fromStorage (some fresh) fresh' false).1 = fresh
        rw [hlong fresh' fresh (by omega)]
        exact hft
      · rw [hlong fresh c hlt]
        show (fromStorage (some c) fresh' false).1 = c.take 32
        rw [hlong fresh' c hlt]

/-- Witness for C3 at a concrete input. -/
theorem fromStorage_read_or_generate_w :
    fromStorage none (List.replicate 32 1) false =
      (List.replicate 32 1, List.replicate 32 1) ∧
    fromStorage (some (List.replicate 40 2)) (List.replicate 32 1) false =
      ((List.replicate 40 2).take 32, List.replicate 40 2) ∧
    (fromStorage (some (fromStorage none (List.replicate 32 1) false).2) [] false).1 =
      (fromStorage none (List.replicate 32 1) false).1 := by
  have h := fromStorage_read_or_generate (List.replicate 32 1) [] (by decide)
  exact ⟨h.1 none (Or.inl rfl), h.2.1 (List.replicate 40 2) (by decide), h.2.2 none⟩

/-- C9: with the `overwrite` option set, `fromStorage` generates and persists
the fresh random profile even when the slot already holds a valid profile of
at least 32 bytes: the stored profile is not read back, the slot's first 32
bytes become the fresh value (a later open returns it), and whenever the fresh
value differs from the old stored profile, the old identity is no longer
reproducible from the slot. -/
theorem fromStorage_overwrite_fresh (c fresh fresh' : Bytes)
    (hc : 32 ≤ c.length) (hf : fresh.length = 32) :
    fromStorage (some c) fresh true = (fresh, fresh ++ c.drop 32) ∧
    (fromStorage (some (fromStorage (some c) fresh true).2) fresh' false).1 = fresh ∧
    (fresh ≠ c.take 32 → (fromStorage (some c) fresh true).1 ≠ c.take 32) := by
  have h1 : fromStorage (some c) fresh true = (fresh, fresh ++ c.drop 32) := by
    simp [fromStorage, writeAt0, hf]
  have hlen : ¬ (fresh ++ c.drop 32).length < 32 := by
    rw [List.length_append, hf]
    omega
  have h2 : fromStorage (some (fresh ++ c.drop 32)) fresh' false =
      ((fresh ++ c.drop 32).take 32, fresh ++ c.drop 32) :=
    fromStorage_keep fresh' (fresh ++ c.drop 32) hlen
  have h3 : (fresh ++ c.drop 32).take 32 = fresh := by
    have ht := List.take_left fresh (c.drop 32)
    rw [hf] at ht
    exact ht
  refine ⟨h1, ?_, ?_⟩
  · rw [h1]
    show (fromStorage (some (fresh ++ c.drop 32)) fresh' false).1 = fresh
    rw [h2]
    exact h3
  · intro hne
    rw [h1]
    exact hne

/-- Witness for C9 at a concrete input. -/
theorem fromStorage_overwrite_fresh_w :
    fromStorage (some (List.replicate 40 2)) (List.replicate 32 1) true =
      (List.replicate 32 1, List.replicate 32 1 ++ (List.replicate 40 2).drop 32) ∧
    (fromStorage
        (some (fromStorage (some (List.replicate 40 2)) (List.replicate 32 1) true).2)
        [] false).1 = List.replicate 32 1 ∧
    (fromStorage (some (List.replicate 40 2)) (List.replicate 32 1) true).1 ≠
      (List.replicate 40 2).take 32 := by
  have h := fromStorage_overwrite_fresh (List.replicate 40 2) (List.replicate 32 1)
    [] (by decide) (by decide)
  exact ⟨h.1, h.2.1, h.2.2 (by decide)⟩

/-- C8: after any sequence of get/resolve and release operations on one
manager's registry, each public key has at most one cache entry (hence one
underlying log instance), and the `cores` collection size equals the number of
distinct live public keys, independent of how many handles reference them. -/
theorem registry_unique_entries (ops : List RegOp) :
    (∀ pk : Bytes, (Registry.run ops).keys.countP (fun k => k = pk) ≤ 1) ∧
    (Registry.run ops).entries.length = (Registry.run ops).keys.dedup.length := by
  have hwf := wf_run ops
  refine ⟨?_, ?_⟩
  · exact fun pk => List.nodup_iff_count_le_one.mp hwf.1 pk
  · rw [List.dedup_eq_self.mpr hwf.1]
    simp [Registry.keys]
